import Mathlib

/-!
Verification of the client-side data/notification derivation engine of the
todo_finalboss web application: calendar arithmetic, the expense recurrence
evaluator, the medicine alert deriver, the daily-top-5 snapshot builder, the
notification reconciliation engine and the storage fallback layer.

Modelling conventions:
* JS epoch-millisecond timestamps are modelled as `Int`.  The application runs
  in a single fixed-offset local timezone (`America/Bogota`, a zone with no
  daylight saving), so all local-calendar computations are modelled in one
  fixed zone whose offset is normalised to 0: a local calendar day is an
  aligned block `[d*MS_DAY, (d+1)*MS_DAY)`.  Every property below is invariant
  under the choice of the constant offset.
* `Math.floor(a / b)` for a positive integer divisor `b` is Euclidean division
  `a / b` on `Int` (Lean's `/` on `Int`), and `Math.round(a / b)` is
  `(2*a + b) / (2*b)`.
* JS `Date` calendar semantics (getFullYear/getMonth/getDate and the
  day-0-of-next-month trick for month lengths) are modelled by an executable
  proleptic-Gregorian calendar (`civilFromDays`, `daysInMonth`).
-/

namespace TodoApp

/-! ### Time constants (src/App.tsx) -/

def MS_MINUTE : Int := 60 * 1000
def MS_HOUR : Int := 60 * 60 * 1000
def MS_DAY : Int := 24 * 60 * 60 * 1000
def HIGH_EXPENSE_THRESHOLD : Int := 50000
def NOTIFICATION_WINDOW_DAYS : Nat := 6

/-- JS `Math.round(a / b)` for integers `a`, positive `b`:
`Math.round x = Math.floor (x + 1/2)`. -/
def jsRoundDiv (a b : Int) : Int := (2 * a + b) / (2 * b)

/-- `getDayStartTs` (src/App.tsx): start of the local calendar day containing
the timestamp.  In the fixed-offset-0 model this is flooring to a multiple of
`MS_DAY`. -/
def getDayStartTs (ts : Int) : Int := (ts / MS_DAY) * MS_DAY

/-- Local calendar-day index of a timestamp.  Two timestamps fall on the same
local calendar day iff their `dateKey`s agree; comparison of the app's
zero-padded `YYYY-MM-DD` date-key strings coincides with comparison of these
day indices. -/
def dateKey (ts : Int) : Int := ts / MS_DAY

/-! ### Proleptic Gregorian calendar (JS `Date` component semantics) -/

/-- Gregorian leap-year predicate. -/
def isLeap (y : Int) : Prop := y % 4 = 0 ∧ (¬ y % 100 = 0 ∨ y % 400 = 0)

instance (y : Int) : Decidable (isLeap y) := by unfold isLeap; infer_instance

/-- Length of month `m` (1-based) of year `y`; this is what JS
`new Date(y, m, 0).getDate()` returns. -/
def daysInMonth (y : Int) (m : Nat) : Nat :=
  if m = 2 then (if isLeap y then 29 else 28)
  else if m = 4 ∨ m = 6 ∨ m = 9 ∨ m = 11 then 30
  else 31

def daysInYear (y : Int) : Nat := if isLeap y then 366 else 365

/-- A civil (year, month, day) triple, month 1-based, day 1-based. -/
structure Ymd where
  y : Int
  m : Nat
  d : Nat
deriving DecidableEq, Repr

/-- Year search: starting from year `y`, peel whole years off a nonnegative
day count `z`.  Fuel-driven so that it reduces in the kernel; the fuel chosen
in `civilOfDaysNat` is always sufficient. -/
def findYearAux : Nat → Int → Nat → Int × Nat
  | 0, y, z => (y, z)
  | fuel + 1, y, z =>
      if daysInYear y ≤ z then findYearAux fuel (y + 1) (z - daysInYear y) else (y, z)

/-- Month search: starting from month `m`, peel whole months off a
day-of-year count. -/
def findMonthAux (y : Int) : Nat → Nat → Nat → Nat × Nat
  | 0, m, doy => (m, doy)
  | fuel + 1, m, doy =>
      if doy < daysInMonth y m ∨ 12 ≤ m then (m, doy)
      else findMonthAux y fuel (m + 1) (doy - daysInMonth y m)

/-- Civil date of day number `z` (days since 1970-01-01), `z ≥ 0`. -/
def civilOfDaysNat (z : Nat) : Ymd :=
  let p := findYearAux (z / 365 + 1) 1970 z
  let q := findMonthAux p.1 12 1 p.2
  ⟨p.1, q.1, q.2 + 1⟩

/-- Civil date of an arbitrary (possibly negative) day number, via shifting by
whole 400-year cycles (146097 days), under which the Gregorian calendar is
periodic. -/
def civilFromDays (z : Int) : Ymd :=
  if 0 ≤ z then civilOfDaysNat z.toNat
  else
    let k := ((-z).toNat + 146096) / 146097
    let c := civilOfDaysNat (z + (k : Int) * 146097).toNat
    ⟨c.y - 400 * (k : Int), c.m, c.d⟩

/-- Day number (days since 1970-01-01) of a civil date with year ≥ 1970;
used only to name concrete dates in theorem statements. -/
def daysFromCivil (y : Int) (m d : Nat) : Int :=
  (((List.range (y - 1970).toNat).foldl (fun acc i => acc + daysInYear (1970 + i)) 0 : Nat) : Int)
    + (((List.range (m - 1)).foldl (fun acc k => acc + daysInMonth y (k + 1)) 0 : Nat) : Int)
    + ((d : Int) - 1)

/-- Epoch milliseconds of local midnight of a civil date (year ≥ 1970). -/
def msOfCivil (y : Int) (m d : Nat) : Int := daysFromCivil y m d * MS_DAY

/-- Total length of months `m, m+1, …, 12` of year `y` (proof helper). -/
def monthsFrom (y : Int) (m : Nat) : Nat :=
  ((List.range' m (13 - m)).map (daysInMonth y)).sum

/-! ### Domain records (src/types.ts, as consumed by the core)

Only the fields read by the modelled core functions are carried; optional
TS fields become `Option`.  `createdAt` is always set by every creation path,
so it is modelled as a required field (making the source's defensive
`?? Date.now()` and `|| 0` reads the identity). -/

inductive Priority
  | P1 | P2 | P3 | P4
deriving DecidableEq, Repr

/-- `DAILY_TOP_PRIORITY_WEIGHT` (src/App.tsx). -/
def DAILY_TOP_PRIORITY_WEIGHT : Priority → Int
  | .P1 => 1
  | .P2 => 2
  | .P3 => 3
  | .P4 => 4

structure Todo where
  id : String
  text : String
  completed : Bool
  createdAt : Int
  priority : Option Priority
  dueDate : Option Int
  complexity : Option Int
deriving DecidableEq, Repr

structure Medicine where
  id : String
  name : String
  dosage : String
  taken : Bool
  remaining : Option Int
  lastUpdated : Option Int
  alarmEnabled : Bool
deriving DecidableEq, Repr

inductive Frequency
  | weekly | monthly
deriving DecidableEq, Repr

structure Expense where
  id : String
  title : String
  amount : Int
  category : String
  frequency : Frequency
  date : Int
deriving DecidableEq, Repr

/-! ### Medicine alert deriver (src/utils/medicineAlerts.ts) -/

def DEFAULT_REMAINING_DAYS : Int := 30
def REFILL_SOON_DAYS : Int := 7

/-- `getRemainingDays` (src/utils/medicineAlerts.ts): days of supply left at
`todayStart`, decaying `remaining` by whole days elapsed since `lastUpdated`.
A missing `lastUpdated` defaults to `todayStart`; a missing (or non-finite)
`remaining` defaults to 30. -/
def getRemainingDays (med : Medicine) (todayStart : Int) : Int :=
  let lastUpdated := med.lastUpdated.getD todayStart
  let remaining := med.remaining.getD DEFAULT_REMAINING_DAYS
  let daysPassed := max 0 ((todayStart - lastUpdated) / MS_DAY)
  max 0 (remaining - daysPassed)

inductive MedicineAlertKind
  | refillEnd | refillSoon
deriving DecidableEq, Repr

/-- The literal union strings `refill-end` / `refill-soon`. -/
def medicineAlertKindStr : MedicineAlertKind → String
  | .refillEnd => "refill-end"
  | .refillSoon => "refill-soon"

structure MedicineAlert where
  id : String
  medicineId : String
  label : String
  kind : MedicineAlertKind
  scheduledAt : Int
deriving DecidableEq, Repr

/-- The `refill-end` alert pushed by `buildMedicineAlerts`, scheduled at
`endTs = todayStart + remainingDays` days. -/
def refillEndAlert (med : Medicine) (todayStart : Int) : MedicineAlert :=
  let remainingDays := getRemainingDays med todayStart
  let endTs := todayStart + remainingDays * MS_DAY
  ⟨med.id ++ "-end-" ++ toString endTs, med.id, med.name ++ " ends",
   .refillEnd, endTs⟩

/-- The `refill-soon` alert pushed by `buildMedicineAlerts`, scheduled 7 days
before the end date. -/
def refillSoonAlert (med : Medicine) (todayStart : Int) : MedicineAlert :=
  let remainingDays := getRemainingDays med todayStart
  let soonTs := todayStart + (remainingDays - REFILL_SOON_DAYS) * MS_DAY
  ⟨med.id ++ "-soon-" ++ toString soonTs, med.id, med.name ++ " refill soon",
   .refillSoon, soonTs⟩

/-- `buildMedicineAlerts` (src/utils/medicineAlerts.ts): per enabled
medicine, a `refill-end` alert, plus a `refill-soon` alert when at least 7
days of supply remain. -/
def buildMedicineAlerts (medicines : List Medicine) (todayStart : Int) :
    List MedicineAlert :=
  medicines.flatMap fun med =>
    if !med.alarmEnabled then []
    else if REFILL_SOON_DAYS ≤ getRemainingDays med todayStart then
      [refillEndAlert med todayStart, refillSoonAlert med todayStart]
    else [refillEndAlert med todayStart]

/-! ### Expense recurrence evaluator (src/App.tsx, `isExpenseDueOnDay`) -/

/-- `isExpenseDueOnDay` (src/App.tsx).  JS `%` on the nonnegative
`diffDays` is truncated remainder, `Int.tmod`. -/
def isExpenseDueOnDay (expense : Expense) (dayStartTs : Int) : Bool :=
  let anchorDayStart := getDayStartTs expense.date
  if dayStartTs < anchorDayStart then false
  else
    match expense.frequency with
    | .weekly =>
        let diffDays := jsRoundDiv (dayStartTs - anchorDayStart) MS_DAY
        Int.tmod diffDays 7 == 0
    | .monthly =>
        let anchorDate := civilFromDays (anchorDayStart / MS_DAY)
        let targetDate := civilFromDays (dayStartTs / MS_DAY)
        let lastDayOfMonth := daysInMonth targetDate.y targetDate.m
        let expectedDay := min anchorDate.d lastDayOfMonth
        targetDate.d == expectedDay

/-! ### Daily-top-5 snapshot builder (src/App.tsx) -/

/-- JS `x || 1` on an optional numeric field: `undefined` and `0` are falsy. -/
def jsOrOne : Option Int → Int
  | none => 1
  | some v => if v = 0 then 1 else v

/-- The comparator tie-break number: `Math.max(1, Math.round(complexity || 1))`
(stored complexities are integral, so `Math.round` is the identity). -/
def todoNumber (t : Todo) : Int := max 1 (jsOrOne t.complexity)

/-- Priority weight of a task, `DAILY_TOP_PRIORITY_WEIGHT[a.priority || 'P4']`. -/
def todoPriorityWeight (t : Todo) : Int :=
  DAILY_TOP_PRIORITY_WEIGHT (t.priority.getD .P4)

/-- Candidate filter of `buildDailyTop5Snapshot`: incomplete, with a truthy
`dueDate` (JS `!todo.dueDate` also rejects the timestamp `0`), due on or
before today's calendar day. -/
def isDailyTopCandidate (nowTs : Int) (t : Todo) : Bool :=
  if t.completed then false
  else
    match t.dueDate with
    | none => false
    | some d => if d = 0 then false else dateKey d ≤ dateKey nowTs

/-- The total preorder induced by the sort comparator of
`buildDailyTop5Snapshot`: priority weight, then clamped complexity, then
`createdAt` (`a.createdAt || 0` is the identity on integers). -/
def dailyTopLE (a b : Todo) : Prop :=
  todoPriorityWeight a < todoPriorityWeight b ∨
    (todoPriorityWeight a = todoPriorityWeight b ∧
      (todoNumber a < todoNumber b ∨
        (todoNumber a = todoNumber b ∧ a.createdAt ≤ b.createdAt)))

instance : DecidableRel dailyTopLE := fun _ _ => by unfold dailyTopLE; infer_instance

instance : IsTotal Todo dailyTopLE :=
  ⟨fun a b => by unfold dailyTopLE; omega⟩

instance : IsTrans Todo dailyTopLE :=
  ⟨fun a b c hab hbc => by unfold dailyTopLE at hab hbc ⊢; omega⟩

def dailyTopCandidates (todos : List Todo) (nowTs : Int) : List Todo :=
  todos.filter (isDailyTopCandidate nowTs)

/-- The candidates sorted by the comparator.  JS `Array.prototype.sort` is a
stable sort (ES2019); a stable sort under a total preorder has a unique
result, so Mathlib's stable `insertionSort` is a faithful model. -/
def dailyTopOrdered (todos : List Todo) (nowTs : Int) : List Todo :=
  List.insertionSort dailyTopLE (dailyTopCandidates todos nowTs)

structure DailyTopTaskSnapshot where
  id : String
  title : String
  priority : Priority
  number : Int
  due_date : Option Int
deriving DecidableEq, Repr

/-- The snapshot entry built for a task; `due_date` carries the calendar-day
key (`toBogotaDateKey` string, modelled as the day index). -/
def mkSnapshotEntry (t : Todo) : DailyTopTaskSnapshot :=
  ⟨t.id, t.text.trim, t.priority.getD .P4, todoNumber t,
   match t.dueDate with
   | none => none
   | some d => if d = 0 then none else some (dateKey d)⟩

/-- `buildDailyTop5Snapshot` (src/App.tsx). -/
def buildDailyTop5Snapshot (todos : List Todo) (nowTs : Int) :
    List DailyTopTaskSnapshot :=
  ((dailyTopOrdered todos nowTs).take 5).map mkSnapshotEntry

/-! ### Notification feed (src/App.tsx, `syncGeneratedNotifications`) -/

inductive NotifSource
  | todo | reminder | medicine | expense
deriving DecidableEq, Repr

inductive NotifKind
  | todoDue | medicineRefillEnd | medicineRefillSoon | expenseDue
deriving DecidableEq, Repr

/-- `AppNotification` (src/types.ts).  `kind`, `todoId` and `entityId` are
optional keys; `none` models an absent key.  `createdAt` is set by every
creation path and is therefore required. -/
structure AppNotification where
  id : String
  message : String
  source : NotifSource
  kind : Option NotifKind
  scheduledAt : Int
  createdAt : Int
  read : Bool
  todoId : Option String
  entityId : Option String
deriving DecidableEq, Repr

/-- Stand-in for `Math.round(amount).toLocaleString('es-CO')`; locale digit
grouping is not modelled — notification messages are opaque strings to every
claim below. -/
def localeAmountString (n : Int) : String := toString n

/-- The `windowDayStarts` array: day starts for offsets `0 … 6`. -/
def windowDayStarts (windowStart : Int) : List Int :=
  (List.range (NOTIFICATION_WINDOW_DAYS + 1)).map
    (fun (offset : Nat) => windowStart + (offset : Int) * MS_DAY)

/-- The `todo-due` base notification built for an incomplete task with a due
date `d`. -/
def todoBaseNotification (todo : Todo) (d : Int) : AppNotification :=
  ⟨"todo:" ++ todo.id, todo.text, .todo, some .todoDue, getDayStartTs d,
   todo.createdAt, false, some todo.id, some todo.id⟩

/-- The todo part of the desired set: one item per incomplete task with a
truthy due date (JS `!todo.dueDate` also rejects the timestamp `0`). -/
def desiredTodoNotifications (todos : List Todo) : List AppNotification :=
  todos.filterMap fun todo =>
    match todo.dueDate with
    | none => none
    | some d =>
        if d = 0 ∨ todo.completed then none
        else some (todoBaseNotification todo d)

/-- The base notification for a medicine alert, scheduled at the alert's
day start `s`. -/
def medicineBaseNotification (alert : MedicineAlert) (s now : Int) :
    AppNotification :=
  ⟨"medicine:" ++ (alert.medicineId ++ ":" ++ medicineAlertKindStr alert.kind
      ++ ":" ++ toString s),
   alert.label, .medicine,
   some (if alert.kind = .refillEnd then .medicineRefillEnd
         else .medicineRefillSoon),
   s, now, false, none, some alert.medicineId⟩

/-- The medicine part of the desired set: alerts for `windowStart`, kept only
when the day offset from the window anchor is within `0 … 6`. -/
def desiredMedicineNotifications (medicines : List Medicine)
    (windowStart now : Int) : List AppNotification :=
  (buildMedicineAlerts medicines windowStart).filterMap fun alert =>
    let scheduledAt := getDayStartTs alert.scheduledAt
    let offset := jsRoundDiv (scheduledAt - windowStart) MS_DAY
    if offset < 0 ∨ (NOTIFICATION_WINDOW_DAYS : Int) < offset then none
    else some (medicineBaseNotification alert scheduledAt now)

/-- The base notification for a recurring expense due on `dayStartTs`. -/
def expenseBaseNotification (expense : Expense) (dayStartTs now : Int) :
    AppNotification :=
  ⟨"expense:" ++ (expense.id ++ ":due:" ++ toString dayStartTs),
   expense.title ++ " due ($" ++ localeAmountString expense.amount ++ ")",
   .expense, some .expenseDue, dayStartTs, now, false, none, some expense.id⟩

/-- The expense part of the desired set: one item per window day on which a
high (≥ threshold) recurring expense is due. -/
def desiredExpenseNotifications (expenses : List Expense)
    (windowStart now : Int) : List AppNotification :=
  expenses.flatMap fun expense =>
    if expense.amount < HIGH_EXPENSE_THRESHOLD then []
    else
      (windowDayStarts windowStart).filterMap fun dayStartTs =>
        if isExpenseDueOnDay expense dayStartTs then
          some (expenseBaseNotification expense dayStartTs now)
        else none

/-- The desired set of generated notifications built by one reconciliation
pass, in the order `syncGeneratedNotifications` upserts them: tasks, then
medicine alerts, then expenses. -/
def desiredNotifications (todos : List Todo) (medicines : List Medicine)
    (expenses : List Expense) (windowStart now : Int) : List AppNotification :=
  desiredTodoNotifications todos
    ++ desiredMedicineNotifications medicines windowStart now
    ++ desiredExpenseNotifications expenses windowStart now

/-- `existingMap.get id`: the persisted notification with the given id.  The
JS `Map` built from entry pairs keeps the last entry for a duplicated key,
modelled by searching the reversed list (the store keys notifications by
`id`, so duplicates do not occur in reachable states). -/
def existingFind (persisted : List AppNotification) (id : String) :
    Option AppNotification :=
  persisted.reverse.find? (fun n => decide (n.id = id))

/-- Replace the first entry carrying `item`'s id. -/
def replaceFirstById (item : AppNotification) :
    List AppNotification → List AppNotification
  | [] => []
  | n :: rest =>
      if n.id = item.id then item :: rest
      else n :: replaceFirstById item rest

/-- `upsertLocal` (src/App.tsx): replace the first feed entry with the same
id, or unshift to the front. -/
def upsertLocal (next : List AppNotification) (item : AppNotification) :
    List AppNotification :=
  if next.any (fun n => decide (n.id = item.id)) then replaceFirstById item next
  else item :: next

/-- The merged entry
`{...existing, ...base, read: existing.read, createdAt: existing.createdAt ?? base.createdAt}`:
every key present on `base` overwrites `existing`, then `read` and
`createdAt` are taken from `existing`.  The generated base literals always
carry `message`, `source`, `kind`, `scheduledAt` and `entityId`, and carry
`todoId` exactly for todo items, so an absent (`none`) optional key leaves
the existing value. -/
def mergeNotification (existing base : AppNotification) : AppNotification :=
  ⟨base.id, base.message, base.source, base.kind <|> existing.kind,
   base.scheduledAt, existing.createdAt, existing.read,
   base.todoId <|> existing.todoId, base.entityId <|> existing.entityId⟩

/-- `needsUpdate` (src/App.tsx): the merged entry differs from the persisted
one in message, scheduledAt, source, todoId, entityId or kind. -/
def needsUpdate (existing nextItem : AppNotification) : Prop :=
  existing.message ≠ nextItem.message ∨
  existing.scheduledAt ≠ nextItem.scheduledAt ∨
  existing.source ≠ nextItem.source ∨
  existing.todoId ≠ nextItem.todoId ∨
  existing.entityId ≠ nextItem.entityId ∨
  existing.kind ≠ nextItem.kind

instance (e n : AppNotification) : Decidable (needsUpdate e n) := by
  unfold needsUpdate; infer_instance

/-- Mutable state threaded through the pass: the working feed copy, the ids
kept so far, and the queued store writes. -/
structure SyncState where
  next : List AppNotification
  keepIds : List String
  updates : List AppNotification
deriving DecidableEq, Repr

/-- One `upsertGenerated` call (src/App.tsx): record the id as kept; insert
the base as unread if no persisted entry shares the id; otherwise merge and
queue a write only when a refreshable field actually changed. -/
def upsertGenerated (persisted : List AppNotification) (st : SyncState)
    (base : AppNotification) : SyncState :=
  let keep := st.keepIds ++ [base.id]
  match existingFind persisted base.id with
  | none => ⟨upsertLocal st.next base, keep, st.updates ++ [base]⟩
  | some existing =>
      let nextItem := mergeNotification existing base
      if needsUpdate existing nextItem then
        ⟨upsertLocal st.next nextItem, keep, st.updates ++ [nextItem]⟩
      else ⟨st.next, keep, st.updates⟩

/-- Result of one reconciliation pass: the next in-memory feed, the store
writes (in order), and the store deletions (in order). -/
structure ReconcileResult where
  feed : List AppNotification
  updates : List AppNotification
  deletions : List String
deriving DecidableEq, Repr

/-- One full pass of `syncGeneratedNotifications` over a persisted feed and
a desired set: upsert every desired item, then delete every non-reminder
persisted item whose id was not kept; the in-memory feed is replaced (with
deleted ids filtered out) only when at least one write or deletion
happened. -/
def reconcile (persisted desired : List AppNotification) : ReconcileResult :=
  let st := desired.foldl (upsertGenerated persisted) ⟨persisted, [], []⟩
  let deletions := (persisted.filter fun n =>
      decide (¬ n.source = NotifSource.reminder ∧ ¬ n.id ∈ st.keepIds)).map
      (fun n => n.id)
  let feed :=
    if st.updates = [] ∧ deletions = [] then persisted
    else st.next.filter (fun n => decide (¬ n.id ∈ deletions))
  ⟨feed, st.updates, deletions⟩

/-- The pass as run by the effect: the desired set is derived from the live
collections and the current window anchor. -/
def reconcilePass (todos : List Todo) (medicines : List Medicine)
    (expenses : List Expense) (windowStart now : Int)
    (persisted : List AppNotification) : ReconcileResult :=
  reconcile persisted
    (desiredNotifications todos medicines expenses windowStart now)

/-- `db.putItem('notifications', item)`: replace-by-key or append, on a store
keyed by `id`. -/
def putKeyed : List AppNotification → AppNotification → List AppNotification
  | [], item => [item]
  | n :: rest, item =>
      if n.id = item.id then item :: rest else n :: putKeyed rest item

/-- Effect of a pass on the notifications store: `putItem` for each update in
order, then `deleteItem` for each deletion in order. -/
def applyStore (store : List AppNotification) (r : ReconcileResult) :
    List AppNotification :=
  r.deletions.foldl (fun s id => s.filter (fun n => decide (¬ n.id = id)))
    (r.updates.foldl putKeyed store)

/-! ### Storage abstraction with sticky fallback (src/services/db.ts) -/

/-- A stored record: a JSON-serializable object keyed by its `id` field (the
payload is opaque to the storage layer). -/
structure DBRec where
  id : String
  body : String
deriving DecidableEq, Repr

def assocGet {α : Type} (l : List (String × α)) (k : String) : Option α :=
  (l.find? (fun p => decide (p.1 = k))).map (fun p => p.2)

/-- `data[key] = v` on a keyed object: replace the first binding or append. -/
def assocPut {α : Type} : List (String × α) → String → α → List (String × α)
  | [], k, v => [(k, v)]
  | p :: tl, k, v => if p.1 = k then (k, v) :: tl else p :: assocPut tl k v

/-- `delete data[key]`. -/
def assocRemove {α : Type} (l : List (String × α)) (k : String) :
    List (String × α) :=
  l.filter (fun p => decide (¬ p.1 = k))

/-- Process-wide storage state: the sticky failure flag, the one-time warning
latch, an emitted-warning counter (instrumenting `console.warn`), the primary
transactional store and the fallback per-collection blobs (the JSON blob is
modelled by its parsed keyed contents; plain records survive the JSON
round-trip unchanged). -/
structure DBState where
  dbFailed : Bool
  fallbackWarned : Bool
  warnCount : Nat
  primary : List (String × List (String × DBRec))
  fallback : List (String × List (String × DBRec))
deriving DecidableEq, Repr

/-- `warnFallbackOnce` (src/services/db.ts). -/
def warnFallbackOnce (st : DBState) : DBState :=
  if st.fallbackWarned then st
  else { st with fallbackWarned := true, warnCount := st.warnCount + 1 }

/-- The catch handler: set the sticky flag and warn once. -/
def markFailed (st : DBState) : DBState :=
  warnFallbackOnce { st with dbFailed := true }

/-- `readStore` on the fallback blob of a collection. -/
def readStoreKV (st : DBState) (col : String) : List (String × DBRec) :=
  (assocGet st.fallback col).getD []

/-- `writeStore` on the fallback blob of a collection. -/
def writeStoreKV (st : DBState) (col : String)
    (data : List (String × DBRec)) : DBState :=
  { st with fallback := assocPut st.fallback col data }

/-- `fallbackGetAll`: `Object.values` of the parsed blob. -/
def dbFallbackGetAll (st : DBState) (col : String) : List DBRec :=
  (readStoreKV st col).map (fun p => p.2)

/-- `fallbackPutItem`: key is the record's `id`, or a fresh random id when
the record lacks one (the UUID is an oracle parameter of the call). -/
def dbFallbackPutItem (st : DBState) (col : String) (item : DBRec)
    (freshId : String) : DBState :=
  let data := readStoreKV st col
  let key := if item.id = "" then freshId else item.id
  writeStoreKV st col (assocPut data key { item with id := key })

/-- `fallbackDeleteItem`: remove the binding when present; otherwise the
source removes the serialized blob and immediately rewrites the same
(unchanged) data — a no-op on the contents. -/
def dbFallbackDeleteItem (st : DBState) (col : String) (id : String) :
    DBState :=
  let data := readStoreKV st col
  if (assocGet data id).isSome then
    writeStoreKV st col (assocRemove data id)
  else
    writeStoreKV { st with fallback := assocRemove st.fallback col } col data

def dbPrimaryGetAll (st : DBState) (col : String) : List DBRec :=
  ((assocGet st.primary col).getD []).map (fun p => p.2)

def dbPrimaryPut (st : DBState) (col : String) (item : DBRec) : DBState :=
  { st with primary :=
      (assocPut st.primary col
        (assocPut ((assocGet st.primary col).getD []) item.id item)) }

def dbPrimaryDelete (st : DBState) (col : String) (id : String) : DBState :=
  { st with primary :=
      (assocPut st.primary col
        (assocRemove ((assocGet st.primary col).getD []) id)) }

inductive DBBackend
  | primary | fallback
deriving DecidableEq, Repr

/-- One storage call; `primaryFails` is the environment oracle saying whether
opening/using the primary store would throw on this call. -/
inductive DBOp
  | getAll (col : String) (primaryFails : Bool)
  | putItem (col : String) (item : DBRec) (freshId : String)
      (primaryFails : Bool)
  | deleteItem (col : String) (id : String) (primaryFails : Bool)
deriving DecidableEq, Repr

def DBOp.fails : DBOp → Bool
  | .getAll _ f => f
  | .putItem _ _ _ f => f
  | .deleteItem _ _ f => f

/-- One storage call (src/services/db.ts `getAll` / `putItem` /
`deleteItem`): when the sticky flag is set (`initDB` resolves to `null`) the
primary is not consulted; a primary failure (open or operation) sets the
sticky flag, emits the one-time warning and serves the call from the
fallback.  Returns the new state, the backend that served the call, and the
result list for `getAll`. -/
def dbExec (st : DBState) : DBOp → DBState × DBBackend × Option (List DBRec)
  | .getAll col f =>
      if st.dbFailed then (st, .fallback, some (dbFallbackGetAll st col))
      else if f then
        let st1 := markFailed st
        (st1, .fallback, some (dbFallbackGetAll st1 col))
      else (st, .primary, some (dbPrimaryGetAll st col))
  | .putItem col item fresh f =>
      if st.dbFailed then (dbFallbackPutItem st col item fresh, .fallback, none)
      else if f then
        (dbFallbackPutItem (markFailed st) col item fresh, .fallback, none)
      else (dbPrimaryPut st col item, .primary, none)
  | .deleteItem col id f =>
      if st.dbFailed then (dbFallbackDeleteItem st col id, .fallback, none)
      else if f then
        (dbFallbackDeleteItem (markFailed st) col id, .fallback, none)
      else (dbPrimaryDelete st col id, .primary, none)

/-- Run a sequence of storage calls, collecting the backend trace. -/
def dbRun (st : DBState) : List DBOp → DBState × List DBBackend
  | [] => (st, [])
  | op :: rest =>
      let r := dbExec st op
      let rr := dbRun r.1 rest
      (rr.1, r.2.1 :: rr.2)

/-- Fresh process state: primary assumed healthy until a call fails. -/
def initDBState : DBState := ⟨false, false, 0, [], []⟩

/-! ### Concrete sample records used in closed statements -/

/-- A monthly expense anchored on 2025-01-31 (noon). -/
def anchored31 : Expense :=
  ⟨"e31", "rent", 100000, "A", .monthly, msOfCivil 2025 1 31 + 12 * MS_HOUR⟩

/-- A monthly expense anchored on 2024-01-31 (noon), a leap year. -/
def anchored31leap : Expense :=
  ⟨"e31L", "rent", 100000, "A", .monthly, msOfCivil 2024 1 31 + 12 * MS_HOUR⟩

/-- A medicine with 10 days of supply, last decayed at epoch day start. -/
def sampleMed10 : Medicine := ⟨"m1", "med1", "", false, some 10, some 0, true⟩

/-- A medicine with 10 days of supply and alerts enabled (C4 witness). -/
def c4med : Medicine := ⟨"m4", "med4", "", false, some 10, some 0, false⟩

/-! ### Calendar invariants -/

theorem daysInYear_ge (y : Int) : 365 ≤ daysInYear y := by
  unfold daysInYear; split <;> omega

theorem daysInMonth_pos (y : Int) (m : Nat) : 0 < daysInMonth y m := by
  unfold daysInMonth; split
  · split <;> omega
  · split <;> omega

theorem findYearAux_inv : ∀ (fuel : Nat) (y : Int) (z : Nat), z < fuel * 365 →
    (findYearAux fuel y z).2 < daysInYear (findYearAux fuel y z).1 := by
  intro fuel
  induction fuel with
  | zero => intro y z h; exact absurd h (by omega)
  | succ n ih =>
      intro y z h
      simp only [findYearAux]
      split
      · rename_i hle
        apply ih
        have := daysInYear_ge y
        omega
      · rename_i hlt
        show z < daysInYear y
        omega

theorem monthsFrom_step (y : Int) (m : Nat) (h : m ≤ 12) :
    monthsFrom y m = daysInMonth y m + monthsFrom y (m + 1) := by
  unfold monthsFrom
  have h13 : 13 - m = (12 - m) + 1 := by omega
  have h13' : 13 - (m + 1) = 12 - m := by omega
  rw [h13, h13', List.range'_succ]
  simp

theorem monthsFrom_one (y : Int) : monthsFrom y 1 = daysInYear y := by
  by_cases h : isLeap y <;>
    simp [monthsFrom, daysInYear, daysInMonth, h, List.range']

theorem findMonthAux_inv : ∀ (fuel : Nat) (y : Int) (m doy : Nat),
    1 ≤ m → m ≤ 12 → 13 ≤ m + fuel → doy < monthsFrom y m →
    1 ≤ (findMonthAux y fuel m doy).1 ∧ (findMonthAux y fuel m doy).1 ≤ 12 ∧
      (findMonthAux y fuel m doy).2 < daysInMonth y (findMonthAux y fuel m doy).1 := by
  intro fuel
  induction fuel with
  | zero =>
      intro y m doy h1 h2 h3 h4
      exact absurd h3 (by omega)
  | succ n ih =>
      intro y m doy h1 h2 h3 h4
      simp only [findMonthAux]
      split
      · rename_i hguard
        rcases hguard with hlt | h12
        · exact ⟨h1, h2, hlt⟩
        · have hm : m = 12 := by omega
          subst hm
          refine ⟨h1, le_refl _, ?_⟩
          have := monthsFrom_step y 12 (by omega)
          have hz : monthsFrom y (12 + 1) = 0 := by simp [monthsFrom, List.range']
          show doy < daysInMonth y 12
          omega
      · rename_i hguard
        push_neg at hguard
        obtain ⟨hge, hlt12⟩ := hguard
        apply ih
        · omega
        · omega
        · omega
        · have := monthsFrom_step y m (by omega)
          omega

theorem civilOfDaysNat_inv (z : Nat) :
    1 ≤ (civilOfDaysNat z).m ∧ (civilOfDaysNat z).m ≤ 12 ∧
      1 ≤ (civilOfDaysNat z).d ∧
      (civilOfDaysNat z).d ≤
        daysInMonth (civilOfDaysNat z).y (civilOfDaysNat z).m := by
  have hy := findYearAux_inv (z / 365 + 1) 1970 z (by omega)
  have hm := findMonthAux_inv 12 (findYearAux (z / 365 + 1) 1970 z).1 1
      (findYearAux (z / 365 + 1) 1970 z).2 (by omega) (by omega) (by omega)
      (by rw [monthsFrom_one]; exact hy)
  obtain ⟨a1, a2, a3⟩ := hm
  exact ⟨a1, a2, Nat.le_add_left 1 _, a3⟩

theorem isLeap_sub_400 (y k : Int) : isLeap (y - 400 * k) ↔ isLeap y := by
  unfold isLeap; omega

theorem daysInMonth_sub_400 (y k : Int) (m : Nat) :
    daysInMonth (y - 400 * k) m = daysInMonth y m := by
  unfold daysInMonth
  by_cases h : isLeap y
  · simp [h, (isLeap_sub_400 y k).mpr h]
  · have h' : ¬ isLeap (y - 400 * k) := fun hc => h ((isLeap_sub_400 y k).mp hc)
    simp [h, h']

theorem civilFromDays_inv (z : Int) :
    1 ≤ (civilFromDays z).m ∧ (civilFromDays z).m ≤ 12 ∧
      1 ≤ (civilFromDays z).d ∧
      (civilFromDays z).d ≤
        daysInMonth (civilFromDays z).y (civilFromDays z).m := by
  by_cases h0 : 0 ≤ z
  · simp only [civilFromDays, if_pos h0]
    exact civilOfDaysNat_inv _
  · simp only [civilFromDays, if_neg h0]
    have h := civilOfDaysNat_inv
      ((z + ((((-z).toNat + 146096) / 146097 : Nat) : Int) * 146097).toNat)
    exact ⟨h.1, h.2.1, h.2.2.1, by rw [daysInMonth_sub_400]; exact h.2.2.2⟩

/-! ### Claim theorems -/

/-- C9: for every expense, weekly or monthly and for any anchor date,
`isExpenseDueOnDay` returns `true` at the day start of the expense's own
anchor date — a recurring expense is always due on its anchor day itself. -/
theorem C9_due_on_anchor_day (e : Expense) :
    isExpenseDueOnDay e (getDayStartTs e.date) = true := by
  obtain ⟨id, title, amount, cat, freq, date⟩ := e
  unfold isExpenseDueOnDay
  rw [if_neg (lt_irrefl _)]
  cases freq with
  | weekly =>
      simp only [sub_self]
      decide
  | monthly =>
      have hinv := (civilFromDays_inv (getDayStartTs date / MS_DAY)).2.2.2
      simp only [Nat.min_eq_left hinv, beq_self_eq_true]

set_option maxRecDepth 1000000 in
/-- C6: for a monthly expense and a day-aligned timestamp,
`isExpenseDueOnDay` is true exactly when the day is not before the anchor's
calendar day and the target day-of-month equals the anchor's day-of-month
clamped to the last valid day of the target month; in particular an expense
anchored on day 31 is due on Feb 28 in non-leap years and on Feb 29 in leap
years. -/
theorem C6_monthly_clamp :
    (∀ (e : Expense) (t : Int), e.frequency = .monthly → getDayStartTs t = t →
      (isExpenseDueOnDay e t = true ↔
        (dateKey e.date ≤ dateKey t ∧
          (civilFromDays (dateKey t)).d =
            min (civilFromDays (dateKey e.date)).d
              (daysInMonth (civilFromDays (dateKey t)).y
                (civilFromDays (dateKey t)).m)))) ∧
    isExpenseDueOnDay anchored31 (msOfCivil 2025 2 28) = true ∧
    isExpenseDueOnDay anchored31leap (msOfCivil 2024 2 29) = true := by
  refine ⟨?_, by decide, by decide⟩
  intro e t hf ha
  obtain ⟨id, title, amount, cat, freq, date⟩ := e
  cases hf
  unfold isExpenseDueOnDay dateKey
  simp only [getDayStartTs, MS_DAY] at ha ⊢
  by_cases hg : t < date / (24 * 60 * 60 * 1000) * (24 * 60 * 60 * 1000)
  · rw [if_pos hg]
    constructor
    · intro h
      exact absurd h (by simp)
    · rintro ⟨h1, -⟩
      exact absurd h1 (by omega)
  · rw [if_neg hg]
    rw [Int.mul_ediv_cancel _ (by norm_num : (24 * 60 * 60 * 1000 : Int) ≠ 0)]
    rw [beq_iff_eq]
    constructor
    · intro h
      exact ⟨by omega, h⟩
    · rintro ⟨-, h⟩
      exact h

set_option maxRecDepth 1000000 in
/-- C6 witness: the general equivalence applied to the concrete expense
anchored 2025-01-31 at the aligned day 2025-02-28. -/
theorem C6_monthly_clamp_witness :
    isExpenseDueOnDay anchored31 (msOfCivil 2025 2 28) = true :=
  (C6_monthly_clamp.1 anchored31 (msOfCivil 2025 2 28) rfl (by decide)).mpr
    (by constructor <;> decide)

/-- C4 counterexample: with an exhausted supply (`remaining = 0`),
`getRemainingDays` takes equal values on two timestamps lying on different
calendar days, so "equality holds iff t1 and t2 fall on the same calendar
day" is false as stated. -/
theorem C4_counterexample :
    ¬ (getRemainingDays ⟨"m", "med", "", false, some 0, some 0, false⟩ MS_DAY =
         getRemainingDays ⟨"m", "med", "", false, some 0, some 0, false⟩ 0 ↔
       getDayStartTs MS_DAY = getDayStartTs 0) := by
  decide

/-- C4 amended: decay monotonicity holds unconditionally
(`t1 ≤ t2 → getRemainingDays med t2 ≤ getRemainingDays med t1`); and for
day-aligned `t1 ≤ t2` with a day-aligned recorded `lastUpdated ≤ t1`,
equality holds iff the two timestamps fall on the same calendar day,
provided the supply has not yet run out at `t1`
(`0 < getRemainingDays med t1`). -/
theorem C4_decay_monotonic_amended (med : Medicine) (t1 t2 : Int)
    (h12 : t1 ≤ t2) :
    getRemainingDays med t2 ≤ getRemainingDays med t1 ∧
    (∀ lu, med.lastUpdated = some lu →
      getDayStartTs lu = lu → getDayStartTs t1 = t1 → getDayStartTs t2 = t2 →
      lu ≤ t1 → 0 < getRemainingDays med t1 →
      (getRemainingDays med t2 = getRemainingDays med t1 ↔
        getDayStartTs t1 = getDayStartTs t2)) := by
  cases hlu : med.lastUpdated with
  | none =>
      constructor
      · simp [getRemainingDays, hlu]
      · intro lu h
        exact absurd h (by simp)
  | some lu =>
      simp only [getRemainingDays, hlu, Option.getD_some, getDayStartTs, MS_DAY]
      constructor
      · omega
      · intro lu' h
        injection h with h
        subst h
        omega

/-- C4 witness: the amended theorem applied to a concrete medicine with 10
days of supply recorded at the epoch day start, at the aligned day starts
`t1 = 0` and `t2 = MS_DAY`. -/
theorem C4_decay_monotonic_amended_witness :
    getRemainingDays c4med MS_DAY ≤ getRemainingDays c4med 0 ∧
    (getRemainingDays c4med MS_DAY = getRemainingDays c4med 0 ↔
      getDayStartTs 0 = getDayStartTs MS_DAY) :=
  ⟨(C4_decay_monotonic_amended c4med 0 MS_DAY (by decide)).1,
   (C4_decay_monotonic_amended c4med 0 MS_DAY (by decide)).2 0 rfl
     (by decide) (by decide) (by decide) (by decide) (by decide)⟩

/-- C7: for a medicine with alerts enabled, `buildMedicineAlerts` emits a
refill-soon alert iff the computed remaining days is at least 7, scheduled
exactly 7 days before the refill-end date; the scenario medicines with 10
and 5 remaining days yield exactly the alerts the claim lists. -/
theorem C7_refill_soon_threshold (med : Medicine) (t : Int)
    (h : med.alarmEnabled = true) :
    ((∃ a ∈ buildMedicineAlerts [med] t, a.kind = .refillSoon) ↔
      REFILL_SOON_DAYS ≤ getRemainingDays med t) ∧
    (∀ a ∈ buildMedicineAlerts [med] t, a.kind = .refillSoon →
      a.scheduledAt =
        (t + getRemainingDays med t * MS_DAY) - REFILL_SOON_DAYS * MS_DAY) ∧
    ((buildMedicineAlerts [⟨"m1", "med1", "", false, some 10, some t, true⟩] t).map
        (fun a => (a.kind, a.scheduledAt)) =
      [(.refillEnd, t + 10 * MS_DAY), (.refillSoon, t + 3 * MS_DAY)]) ∧
    ((buildMedicineAlerts [⟨"m2", "med2", "", false, some 5, some t, true⟩] t).map
        (fun a => (a.kind, a.scheduledAt)) =
      [(.refillEnd, t + 5 * MS_DAY)]) := by
  have hrd10 : getRemainingDays ⟨"m1", "med1", "", false, some 10, some t, true⟩ t = 10 := by
    simp only [getRemainingDays, Option.getD_some, MS_DAY]
    omega
  have hrd5 : getRemainingDays ⟨"m2", "med2", "", false, some 5, some t, true⟩ t = 5 := by
    simp only [getRemainingDays, Option.getD_some, MS_DAY]
    omega
  have hb : buildMedicineAlerts [med] t =
      if REFILL_SOON_DAYS ≤ getRemainingDays med t then
        [refillEndAlert med t, refillSoonAlert med t]
      else [refillEndAlert med t] := by
    simp [buildMedicineAlerts, h]
  refine ⟨?_, ?_, ?_, ?_⟩
  · rw [hb]
    by_cases h7 : REFILL_SOON_DAYS ≤ getRemainingDays med t
    · rw [if_pos h7]
      constructor
      · intro _
        exact h7
      · intro _
        exact ⟨refillSoonAlert med t, by simp, rfl⟩
    · rw [if_neg h7]
      constructor
      · rintro ⟨a, hm, hk⟩
        rw [List.mem_singleton] at hm
        subst hm
        exact absurd hk (by simp [refillEndAlert])
      · intro hc
        exact absurd hc h7
  · intro a hm hk
    rw [hb] at hm
    by_cases h7 : REFILL_SOON_DAYS ≤ getRemainingDays med t
    · rw [if_pos h7] at hm
      rcases List.mem_cons.mp hm with hm | hm
      · rw [hm] at hk
        exact absurd hk (by simp [refillEndAlert])
      · rw [List.mem_singleton] at hm
        subst hm
        show t + (getRemainingDays med t - REFILL_SOON_DAYS) * MS_DAY = _
        ring
    · rw [if_neg h7, List.mem_singleton] at hm
      subst hm
      exact absurd hk (by simp [refillEndAlert])
  · simp [buildMedicineAlerts, hrd10, refillEndAlert, refillSoonAlert,
      REFILL_SOON_DAYS]
  · simp [buildMedicineAlerts, hrd5, refillEndAlert, refillSoonAlert,
      REFILL_SOON_DAYS]

/-- C7 witness: the threshold equivalence applied to the concrete enabled
medicine with 10 remaining days at `todayStart = 0`. -/
theorem C7_refill_soon_threshold_witness :
    ∃ a ∈ buildMedicineAlerts [sampleMed10] 0, a.kind = .refillSoon :=
  ((C7_refill_soon_threshold sampleMed10 0 rfl).1).mpr (by decide)

/-- C10: every alert produced by `buildMedicineAlerts` is scheduled at or
after `todayStart` — never in the past — for any medicine list, including
records with missing `remaining` or `lastUpdated`. -/
theorem C10_alerts_not_past (medicines : List Medicine) (todayStart : Int)
    (a : MedicineAlert) (ha : a ∈ buildMedicineAlerts medicines todayStart) :
    todayStart ≤ a.scheduledAt := by
  rw [buildMedicineAlerts, List.mem_flatMap] at ha
  obtain ⟨med, hmed, hma⟩ := ha
  have h0 : 0 ≤ getRemainingDays med todayStart := le_max_left 0 _
  cases he : med.alarmEnabled with
  | false =>
      simp [he] at hma
  | true =>
      simp only [he, Bool.not_true, Bool.false_eq_true, if_false] at hma
      by_cases h7 : REFILL_SOON_DAYS ≤ getRemainingDays med todayStart
      · rw [if_pos h7] at hma
        rcases List.mem_cons.mp hma with hma | hma
        · subst hma
          show todayStart ≤ todayStart + getRemainingDays med todayStart * MS_DAY
          simp only [MS_DAY]
          omega
        · rw [List.mem_singleton] at hma
          subst hma
          show todayStart ≤
            todayStart + (getRemainingDays med todayStart - REFILL_SOON_DAYS) * MS_DAY
          simp only [REFILL_SOON_DAYS] at h7
          simp only [REFILL_SOON_DAYS, MS_DAY]
          omega
      · rw [if_neg h7, List.mem_singleton] at hma
        subst hma
        show todayStart ≤ todayStart + getRemainingDays med todayStart * MS_DAY
        simp only [MS_DAY]
        omega

/-- C10 witness: the bound applied to the refill-end alert of the concrete
sample medicine at `todayStart = 0`. -/
theorem C10_alerts_not_past_witness :
    (0 : Int) ≤
      (⟨"m1-end-864000000", "m1", "med1 ends", .refillEnd, 864000000⟩ :
        MedicineAlert).scheduledAt :=
  C10_alerts_not_past [sampleMed10] 0 _ (by decide)

/-! ### Reconciliation invariants -/

theorem upsertGenerated_none (persisted : List AppNotification)
    (st : SyncState) (b : AppNotification)
    (h : existingFind persisted b.id = none) :
    upsertGenerated persisted st b =
      ⟨upsertLocal st.next b, st.keepIds ++ [b.id], st.updates ++ [b]⟩ := by
  simp only [upsertGenerated, h]

theorem upsertGenerated_some_pos (persisted : List AppNotification)
    (st : SyncState) (b e : AppNotification)
    (h : existingFind persisted b.id = some e)
    (hn : needsUpdate e (mergeNotification e b)) :
    upsertGenerated persisted st b =
      ⟨upsertLocal st.next (mergeNotification e b), st.keepIds ++ [b.id],
        st.updates ++ [mergeNotification e b]⟩ := by
  simp only [upsertGenerated, h]
  rw [if_pos hn]

theorem upsertGenerated_some_neg (persisted : List AppNotification)
    (st : SyncState) (b e : AppNotification)
    (h : existingFind persisted b.id = some e)
    (hn : ¬ needsUpdate e (mergeNotification e b)) :
    upsertGenerated persisted st b = ⟨st.next, st.keepIds ++ [b.id], st.updates⟩ := by
  simp only [upsertGenerated, h]
  rw [if_neg hn]

theorem upsertGenerated_keepIds (persisted : List AppNotification)
    (st : SyncState) (b : AppNotification) :
    (upsertGenerated persisted st b).keepIds = st.keepIds ++ [b.id] := by
  rcases hf : existingFind persisted b.id with - | e
  · rw [upsertGenerated_none persisted st b hf]
  · by_cases hn : needsUpdate e (mergeNotification e b)
    · rw [upsertGenerated_some_pos persisted st b e hf hn]
    · rw [upsertGenerated_some_neg persisted st b e hf hn]

theorem foldl_keepIds (persisted : List AppNotification)
    (desired : List AppNotification) :
    ∀ st : SyncState,
      (desired.foldl (upsertGenerated persisted) st).keepIds =
        st.keepIds ++ desired.map (fun n => n.id) := by
  induction desired with
  | nil => intro st; simp
  | cons b l ih =>
      intro st
      rw [List.foldl_cons, ih, upsertGenerated_keepIds]
      simp

theorem existingFind_eq_none_iff (persisted : List AppNotification)
    (i : String) :
    existingFind persisted i = none ↔ ∀ n ∈ persisted, n.id ≠ i := by
  simp [existingFind, List.find?_eq_none]

theorem existingFind_eq_some (persisted : List AppNotification) (i : String)
    (e : AppNotification) (h : existingFind persisted i = some e) :
    e ∈ persisted ∧ e.id = i := by
  unfold existingFind at h
  have h1 := List.mem_of_find?_eq_some h
  have h2 := List.find?_some h
  rw [List.mem_reverse] at h1
  simp only [decide_eq_true_eq] at h2
  exact ⟨h1, h2⟩

theorem nodup_id_unique (persisted : List AppNotification)
    (hnd : (persisted.map (fun n => n.id)).Nodup)
    {p q : AppNotification} (hp : p ∈ persisted) (hq : q ∈ persisted)
    (h : q.id = p.id) : q = p :=
  List.inj_on_of_nodup_map hnd hq hp h

theorem mem_foldl_updates (persisted : List AppNotification)
    (desired : List AppNotification) :
    ∀ (st : SyncState) (u : AppNotification),
      u ∈ (desired.foldl (upsertGenerated persisted) st).updates →
      u ∈ st.updates ∨ ∃ b ∈ desired, u.id = b.id ∧
        ((existingFind persisted b.id = none ∧ u = b) ∨
          ∃ e, existingFind persisted b.id = some e ∧
            u = mergeNotification e b ∧ needsUpdate e u) := by
  induction desired with
  | nil => intro st u hu; exact Or.inl hu
  | cons b l ih =>
      intro st u hu
      rw [List.foldl_cons] at hu
      rcases ih _ u hu with h | ⟨b', hb', hc⟩
      · rcases hf : existingFind persisted b.id with - | e
        · rw [upsertGenerated_none persisted st b hf] at h
          rcases List.mem_append.mp h with h | h
          · exact Or.inl h
          · rw [List.mem_singleton] at h
            exact Or.inr ⟨b, List.mem_cons_self b l, by rw [h],
              Or.inl ⟨hf, h⟩⟩
        · by_cases hn : needsUpdate e (mergeNotification e b)
          · rw [upsertGenerated_some_pos persisted st b e hf hn] at h
            rcases List.mem_append.mp h with h | h
            · exact Or.inl h
            · rw [List.mem_singleton] at h
              exact Or.inr ⟨b, List.mem_cons_self b l, by rw [h]; rfl,
                Or.inr ⟨e, hf, h, by rw [h]; exact hn⟩⟩
          · rw [upsertGenerated_some_neg persisted st b e hf hn] at h
            exact Or.inl h
      · exact Or.inr ⟨b', List.mem_cons_of_mem b hb', hc⟩

theorem mem_replaceFirstById_elim (item q : AppNotification) :
    ∀ l, q ∈ replaceFirstById item l → q ∈ l ∨ q = item := by
  intro l
  induction l with
  | nil => intro h; exact Or.inl h
  | cons n rest ih =>
      simp only [replaceFirstById]
      split
      · intro h
        rcases List.mem_cons.mp h with h | h
        · exact Or.inr h
        · exact Or.inl (List.mem_cons_of_mem n h)
      · intro h
        rcases List.mem_cons.mp h with h | h
        · exact Or.inl (h ▸ List.mem_cons_self n rest)
        · rcases ih h with h | h
          · exact Or.inl (List.mem_cons_of_mem n h)
          · exact Or.inr h

theorem mem_upsertLocal_elim (next : List AppNotification)
    (item q : AppNotification) (h : q ∈ upsertLocal next item) :
    q ∈ next ∨ q = item := by
  unfold upsertLocal at h
  split at h
  · exact mem_replaceFirstById_elim item q next h
  · rcases List.mem_cons.mp h with h | h
    · exact Or.inr h
    · exact Or.inl h

theorem mem_replaceFirstById_of (item p : AppNotification) :
    ∀ l, p ∈ l → p.id ≠ item.id → p ∈ replaceFirstById item l := by
  intro l
  induction l with
  | nil => intro h; exact absurd h (by simp)
  | cons n rest ih =>
      intro hp hne
      simp only [replaceFirstById]
      split
      · rename_i hn
        rcases List.mem_cons.mp hp with h | h
        · exact absurd (h ▸ hn) hne
        · exact List.mem_cons_of_mem _ h
      · rcases List.mem_cons.mp hp with h | h
        · exact h ▸ List.mem_cons_self n _
        · exact List.mem_cons_of_mem _ (ih h hne)

theorem mem_upsertLocal_of (next : List AppNotification)
    (item p : AppNotification) (hp : p ∈ next) (hne : p.id ≠ item.id) :
    p ∈ upsertLocal next item := by
  unfold upsertLocal
  split
  · exact mem_replaceFirstById_of item p next hp hne
  · exact List.mem_cons_of_mem _ hp

theorem mem_foldl_next (persisted : List AppNotification)
    (desired : List AppNotification) :
    ∀ (st : SyncState) (q : AppNotification),
      q ∈ (desired.foldl (upsertGenerated persisted) st).next →
      q ∈ st.next ∨ ∃ b ∈ desired, q.id = b.id ∧
        ((existingFind persisted b.id = none ∧ q = b) ∨
          ∃ e, existingFind persisted b.id = some e ∧
            q = mergeNotification e b) := by
  induction desired with
  | nil => intro st q hq; exact Or.inl hq
  | cons b l ih =>
      intro st q hq
      rw [List.foldl_cons] at hq
      rcases ih _ q hq with h | ⟨b', hb', hc⟩
      · rcases hf : existingFind persisted b.id with - | e
        · rw [upsertGenerated_none persisted st b hf] at h
          rcases mem_upsertLocal_elim _ _ _ h with h | h
          · exact Or.inl h
          · exact Or.inr ⟨b, List.mem_cons_self b l, by rw [h],
              Or.inl ⟨hf, h⟩⟩
        · by_cases hn : needsUpdate e (mergeNotification e b)
          · rw [upsertGenerated_some_pos persisted st b e hf hn] at h
            rcases mem_upsertLocal_elim _ _ _ h with h | h
            · exact Or.inl h
            · exact Or.inr ⟨b, List.mem_cons_self b l, by rw [h]; rfl,
                Or.inr ⟨e, hf, h⟩⟩
          · rw [upsertGenerated_some_neg persisted st b e hf hn] at h
            exact Or.inl h
      · exact Or.inr ⟨b', List.mem_cons_of_mem b hb', hc⟩

theorem foldl_next_keeps (persisted : List AppNotification)
    (p : AppNotification) (desired : List AppNotification) :
    ∀ st : SyncState, (∀ b ∈ desired, b.id ≠ p.id) → p ∈ st.next →
      p ∈ (desired.foldl (upsertGenerated persisted) st).next := by
  induction desired with
  | nil => intro st _ hp; exact hp
  | cons b l ih =>
      intro st hdisj hp
      rw [List.foldl_cons]
      refine ih _ (fun b' hb' => hdisj b' (List.mem_cons_of_mem b hb')) ?_
      have hne : p.id ≠ b.id := fun h =>
        hdisj b (List.mem_cons_self b l) h.symm
      rcases hf : existingFind persisted b.id with - | e
      · rw [upsertGenerated_none persisted st b hf]
        exact mem_upsertLocal_of _ _ _ hp hne
      · by_cases hn : needsUpdate e (mergeNotification e b)
        · rw [upsertGenerated_some_pos persisted st b e hf hn]
          exact mem_upsertLocal_of _ _ _ hp hne
        · rw [upsertGenerated_some_neg persisted st b e hf hn]
          exact hp

theorem reconcile_updates_eq (persisted desired : List AppNotification) :
    (reconcile persisted desired).updates =
      (desired.foldl (upsertGenerated persisted) ⟨persisted, [], []⟩).updates :=
  rfl

theorem reconcile_deletions_eq (persisted desired : List AppNotification) :
    (reconcile persisted desired).deletions =
      (persisted.filter fun n =>
        decide (¬ n.source = NotifSource.reminder ∧
          ¬ n.id ∈ (desired.foldl (upsertGenerated persisted)
            ⟨persisted, [], []⟩).keepIds)).map (fun n => n.id) :=
  rfl

theorem reconcile_feed_eq (persisted desired : List AppNotification) :
    (reconcile persisted desired).feed =
      if (reconcile persisted desired).updates = [] ∧
          (reconcile persisted desired).deletions = [] then persisted
      else (desired.foldl (upsertGenerated persisted)
          ⟨persisted, [], []⟩).next.filter
        (fun n => decide (¬ n.id ∈ (reconcile persisted desired).deletions)) :=
  rfl

theorem mem_reconcile_deletions (persisted desired : List AppNotification)
    (i : String) :
    i ∈ (reconcile persisted desired).deletions ↔
      ∃ n ∈ persisted, n.id = i ∧ ¬ n.source = NotifSource.reminder ∧
        ¬ n.id ∈ desired.map (fun x => x.id) := by
  rw [reconcile_deletions_eq, foldl_keepIds]
  simp only [List.mem_map, List.mem_filter, decide_eq_true_eq,
    List.nil_append]
  constructor
  · rintro ⟨n, ⟨hn, hs, hm⟩, hi⟩
    exact ⟨n, hn, hi, hs, hm⟩
  · rintro ⟨n, hn, hi, hs, hm⟩
    exact ⟨n, ⟨hn, hs, hm⟩, hi⟩

/-- C1: a reconciliation pass merges each desired item over the persisted
notification sharing its deterministic id, keeping the persisted `read` flag
and `createdAt` (regardless of the other collections); the merged entry may
refresh only message, scheduledAt, kind, source and the back-reference ids,
and a store write for that id is issued only when one of those fields
actually differs from the persisted value; the persisted entry is never
deleted by the pass. -/
theorem C1_merge_preserves_read_state (todos : List Todo)
    (medicines : List Medicine) (expenses : List Expense)
    (windowStart now : Int) (persisted : List AppNotification)
    (p : AppNotification)
    (hnd : (persisted.map (fun n => n.id)).Nodup)
    (hp : p ∈ persisted)
    (hdes : p.id ∈ (desiredNotifications todos medicines expenses windowStart
      now).map (fun n => n.id)) :
    (∀ q ∈ (reconcilePass todos medicines expenses windowStart now
        persisted).feed,
      q.id = p.id → q.read = p.read ∧ q.createdAt = p.createdAt) ∧
    (∀ u ∈ (reconcilePass todos medicines expenses windowStart now
        persisted).updates,
      u.id = p.id →
        u.read = p.read ∧ u.createdAt = p.createdAt ∧
          (p.message ≠ u.message ∨ p.scheduledAt ≠ u.scheduledAt ∨
            p.source ≠ u.source ∨ p.todoId ≠ u.todoId ∨
            p.entityId ≠ u.entityId ∨ p.kind ≠ u.kind)) ∧
    p.id ∉ (reconcilePass todos medicines expenses windowStart now
        persisted).deletions := by
  unfold reconcilePass
  set desired := desiredNotifications todos medicines expenses windowStart now
    with hdesired
  refine ⟨?_, ?_, ?_⟩
  · intro q hq hid
    rw [reconcile_feed_eq] at hq
    split at hq
    · have := nodup_id_unique persisted hnd hp hq hid
      rw [this]
      exact ⟨rfl, rfl⟩
    · have hq' := (List.mem_filter.mp hq).1
      rcases mem_foldl_next persisted desired _ q hq' with h | ⟨b, hb, hidb, hc⟩
      · have := nodup_id_unique persisted hnd hp h hid
        rw [this]
        exact ⟨rfl, rfl⟩
      · rcases hc with ⟨hnone, rfl⟩ | ⟨e, hsome, rfl⟩
        · exact absurd (hid ▸ hidb ▸ rfl : p.id = q.id)
            (fun hh => (existingFind_eq_none_iff persisted q.id).mp
              (hidb ▸ hnone) p hp (by rw [hh]))
        · obtain ⟨hemem, heid⟩ := existingFind_eq_some persisted b.id e hsome
          have hep : e = p := nodup_id_unique persisted hnd hp hemem
            (by rw [heid, ← hidb, hid])
          subst hep
          exact ⟨rfl, rfl⟩
  · intro u hu hid
    rw [reconcile_updates_eq] at hu
    rcases mem_foldl_updates persisted desired _ u hu with h | ⟨b, hb, hidb, hc⟩
    · exact absurd h (by simp)
    · rcases hc with ⟨hnone, rfl⟩ | ⟨e, hsome, rfl, hnu⟩
      · exact absurd (hid ▸ hidb ▸ rfl : p.id = u.id)
          (fun hh => (existingFind_eq_none_iff persisted u.id).mp
            (hidb ▸ hnone) p hp (by rw [hh]))
      · obtain ⟨hemem, heid⟩ := existingFind_eq_some persisted b.id e hsome
        have hep : e = p := nodup_id_unique persisted hnd hp hemem
          (by rw [heid, ← hidb, hid])
        subst hep
        exact ⟨rfl, rfl, hnu⟩
  · intro hdel
    rw [mem_reconcile_deletions] at hdel
    obtain ⟨n, hn, hni, hns, hnm⟩ := hdel
    exact hnm (hni ▸ hdes)

/-- C1 witness: the pass over one read todo notification whose task text
changed; the merged feed entry and the issued write keep `read = true` and
`createdAt = 5`. -/
theorem C1_merge_preserves_read_state_witness :
    ((⟨"todo:t1", "new text", .todo, some .todoDue, 86400000, 5, true,
        some "t1", some "t1"⟩ : AppNotification).read =
      (⟨"todo:t1", "old msg", .todo, some .todoDue, 0, 5, true, some "t1",
        some "t1"⟩ : AppNotification).read) ∧
    ((⟨"todo:t1", "new text", .todo, some .todoDue, 86400000, 5, true,
        some "t1", some "t1"⟩ : AppNotification).createdAt =
      (⟨"todo:t1", "old msg", .todo, some .todoDue, 0, 5, true, some "t1",
        some "t1"⟩ : AppNotification).createdAt) :=
  ((C1_merge_preserves_read_state
      [⟨"t1", "new text", false, 5, some .P1, some MS_DAY, none⟩] [] [] 0 0
      [⟨"todo:t1", "old msg", .todo, some .todoDue, 0, 5, true, some "t1",
        some "t1"⟩]
      ⟨"todo:t1", "old msg", .todo, some .todoDue, 0, 5, true, some "t1",
        some "t1"⟩
      (by decide) (by decide) (by decide)).1
    ⟨"todo:t1", "new text", .todo, some .todoDue, 86400000, 5, true,
      some "t1", some "t1"⟩ (by decide) (by decide)).imp id
    (fun h => h)

/-! ### Store-effect lemmas and the shape of desired ids -/

theorem desired_shape (todos : List Todo) (medicines : List Medicine)
    (expenses : List Expense) (ws now : Int) :
    ∀ n ∈ desiredNotifications todos medicines expenses ws now,
      n.source ≠ NotifSource.reminder ∧
      ((∃ s, n.id = "todo:" ++ s) ∨ (∃ s, n.id = "medicine:" ++ s) ∨
        (∃ s, n.id = "expense:" ++ s)) := by
  intro n hn
  unfold desiredNotifications at hn
  rcases List.mem_append.mp hn with hn | hn
  rcases List.mem_append.mp hn with hn | hn
  · simp only [desiredTodoNotifications, List.mem_filterMap] at hn
    obtain ⟨todo, hmem, hf⟩ := hn
    rcases hd : todo.dueDate with - | d
    · simp only [hd] at hf
      cases hf
    · simp only [hd] at hf
      by_cases hc : d = 0 ∨ todo.completed = true
      · rw [if_pos hc] at hf
        cases hf
      · rw [if_neg hc] at hf
        injection hf with hf
        subst hf
        exact ⟨by simp [todoBaseNotification], Or.inl ⟨todo.id, rfl⟩⟩
  · simp only [desiredMedicineNotifications, List.mem_filterMap] at hn
    obtain ⟨alert, hmem, hf⟩ := hn
    split at hf
    · cases hf
    · injection hf with hf
      subst hf
      exact ⟨by simp [medicineBaseNotification],
        Or.inr (Or.inl ⟨alert.medicineId ++ ":" ++
          medicineAlertKindStr alert.kind ++ ":" ++
          toString (getDayStartTs alert.scheduledAt), rfl⟩)⟩
  · simp only [desiredExpenseNotifications, List.mem_flatMap] at hn
    obtain ⟨expense, hemem, hn⟩ := hn
    split at hn
    · cases hn
    · simp only [List.mem_filterMap] at hn
      obtain ⟨d, hdmem, hf⟩ := hn
      split at hf
      · injection hf with hf
        subst hf
        exact ⟨by simp [expenseBaseNotification],
          Or.inr (Or.inr ⟨expense.id ++ ":due:" ++ toString d, rfl⟩)⟩
      · cases hf

theorem mem_putKeyed_of (item p : AppNotification) :
    ∀ store, p ∈ store → p.id ≠ item.id → p ∈ putKeyed store item := by
  intro store
  induction store with
  | nil => intro h; exact absurd h (by simp)
  | cons n rest ih =>
      intro hp hne
      simp only [putKeyed]
      split
      · rename_i hn
        rcases List.mem_cons.mp hp with h | h
        · exact absurd (h ▸ hn) hne
        · exact List.mem_cons_of_mem _ h
      · rcases List.mem_cons.mp hp with h | h
        · exact h ▸ List.mem_cons_self n _
        · exact List.mem_cons_of_mem _ (ih h hne)

theorem mem_foldl_putKeyed_of (p : AppNotification)
    (updates : List AppNotification) :
    ∀ store, p ∈ store → (∀ u ∈ updates, p.id ≠ u.id) →
      p ∈ updates.foldl putKeyed store := by
  induction updates with
  | nil => intro store hp _; exact hp
  | cons u l ih =>
      intro store hp hne
      rw [List.foldl_cons]
      exact ih _ (mem_putKeyed_of u p store hp (hne u (List.mem_cons_self u l)))
        (fun u' hu' => hne u' (List.mem_cons_of_mem u hu'))

theorem mem_foldl_delete_subset (q : AppNotification) (ids : List String) :
    ∀ s, q ∈ ids.foldl
        (fun (s : List AppNotification) (i : String) =>
          s.filter (fun n => decide (¬ n.id = i))) s → q ∈ s := by
  induction ids with
  | nil => intro s h; exact h
  | cons i l ih =>
      intro s h
      rw [List.foldl_cons] at h
      exact (List.mem_filter.mp (ih _ h)).1

theorem mem_foldl_delete_keeps (p : AppNotification) (ids : List String) :
    ∀ s, p ∈ s → p.id ∉ ids →
      p ∈ ids.foldl (fun (s : List AppNotification) (i : String) =>
        s.filter (fun n => decide (¬ n.id = i))) s := by
  induction ids with
  | nil => intro s hp _; exact hp
  | cons i l ih =>
      intro s hp hni
      rw [List.foldl_cons]
      refine ih _ (List.mem_filter.mpr ⟨hp, ?_⟩)
        (fun h => hni (List.mem_cons_of_mem i h))
      simp only [decide_eq_true_eq]
      exact fun h => hni (h ▸ List.mem_cons_self i l)

theorem foldl_delete_removes (a : String) (ids : List String) :
    ∀ s, a ∈ ids →
      ∀ q ∈ ids.foldl (fun (s : List AppNotification) (i : String) =>
          s.filter (fun n => decide (¬ n.id = i))) s,
        q.id ≠ a := by
  induction ids with
  | nil => intro s ha; exact absurd ha (by simp)
  | cons i l ih =>
      intro s ha q hq
      rcases List.mem_cons.mp ha with ha | ha
      · subst ha
        rw [List.foldl_cons] at hq
        have := mem_foldl_delete_subset q l _ hq
        have h2 := (List.mem_filter.mp this).2
        simp only [decide_eq_true_eq] at h2
        exact h2
      · rw [List.foldl_cons] at hq
        exact ih _ ha q hq

/-- C2: after a reconciliation pass, every persisted generated notification
(source ≠ reminder) whose id is not in the desired set is deleted from the
store and dropped from the feed — in particular, marking a task completed
removes its `todo:<taskId>` notification — while reminder-source
notifications (whose random UUID ids never carry a generated-id prefix) are
never inserted, modified or deleted by the pass. -/
theorem C2_prune_stale_and_spare_reminders (todos : List Todo)
    (medicines : List Medicine) (expenses : List Expense)
    (windowStart now : Int) (persisted : List AppNotification)
    (p : AppNotification)
    (hnd : (persisted.map (fun n => n.id)).Nodup)
    (hp : p ∈ persisted) :
    (¬ p.source = NotifSource.reminder →
      ¬ p.id ∈ (desiredNotifications todos medicines expenses windowStart
        now).map (fun n => n.id) →
      p.id ∈ (reconcilePass todos medicines expenses windowStart now
          persisted).deletions ∧
        (∀ q ∈ (reconcilePass todos medicines expenses windowStart now
            persisted).feed, ¬ q.id = p.id) ∧
        (∀ q ∈ applyStore persisted
            (reconcilePass todos medicines expenses windowStart now
              persisted), ¬ q.id = p.id)) ∧
    (p.source = NotifSource.reminder →
      (∀ s, ¬ p.id = "todo:" ++ s) →
      (∀ s, ¬ p.id = "medicine:" ++ s) →
      (∀ s, ¬ p.id = "expense:" ++ s) →
      ¬ p.id ∈ (reconcilePass todos medicines expenses windowStart now
          persisted).deletions ∧
        p ∈ (reconcilePass todos medicines expenses windowStart now
          persisted).feed ∧
        p ∈ applyStore persisted
          (reconcilePass todos medicines expenses windowStart now persisted) ∧
        (∀ u ∈ (reconcilePass todos medicines expenses windowStart now
            persisted).updates, ¬ u.id = p.id)) ∧
    ((reconcilePass [⟨"t1", "task", true, 0, some .P1, some MS_DAY, none⟩]
        [] [] 0 0
        [⟨"todo:t1", "task", .todo, some .todoDue, MS_DAY, 0, false,
          some "t1", some "t1"⟩]).deletions = ["todo:t1"] ∧
      (reconcilePass [⟨"t1", "task", true, 0, some .P1, some MS_DAY, none⟩]
        [] [] 0 0
        [⟨"todo:t1", "task", .todo, some .todoDue, MS_DAY, 0, false,
          some "t1", some "t1"⟩]).feed = []) := by
  unfold reconcilePass
  set desired := desiredNotifications todos medicines expenses windowStart now
    with hdesired
  refine ⟨?_, ?_, by constructor <;> decide⟩
  · intro hsrc hnot
    have hdel : p.id ∈ (reconcile persisted desired).deletions :=
      (mem_reconcile_deletions persisted desired p.id).mpr
        ⟨p, hp, rfl, hsrc, hnot⟩
    refine ⟨hdel, ?_, ?_⟩
    · intro q hq heq
      rw [reconcile_feed_eq] at hq
      split at hq
      · rename_i hcond
        rw [hcond.2] at hdel
        exact absurd hdel (by simp)
      · have h2 := (List.mem_filter.mp hq).2
        simp only [decide_eq_true_eq] at h2
        exact h2 (heq ▸ hdel)
    · intro q hq heq
      exact foldl_delete_removes p.id _ _ hdel q hq heq
  · intro hsrc hpfx1 hpfx2 hpfx3
    have hdisj : ∀ b ∈ desired, b.id ≠ p.id := by
      intro b hb heq
      rcases (desired_shape todos medicines expenses windowStart now b hb).2
        with ⟨s, hs⟩ | ⟨s, hs⟩ | ⟨s, hs⟩
      · exact hpfx1 s (heq ▸ hs)
      · exact hpfx2 s (heq ▸ hs)
      · exact hpfx3 s (heq ▸ hs)
    have hnodel : ¬ p.id ∈ (reconcile persisted desired).deletions := by
      intro h
      obtain ⟨m, hm, hmi, hms, -⟩ :=
        (mem_reconcile_deletions persisted desired p.id).mp h
      have := nodup_id_unique persisted hnd hp hm hmi
      rw [this] at hms
      exact hms hsrc
    have hupd : ∀ u ∈ (reconcile persisted desired).updates, ¬ u.id = p.id := by
      intro u hu heq
      rw [reconcile_updates_eq] at hu
      rcases mem_foldl_updates persisted desired _ u hu with h | ⟨b, hb, hidb, -⟩
      · exact absurd h (by simp)
      · exact hdisj b hb (hidb ▸ heq)
    refine ⟨hnodel, ?_, ?_, hupd⟩
    · rw [reconcile_feed_eq]
      split
      · exact hp
      · refine List.mem_filter.mpr ⟨?_, ?_⟩
        · exact foldl_next_keeps persisted p desired _ hdisj hp
        · simp only [decide_eq_true_eq]
          exact hnodel
    · refine mem_foldl_delete_keeps p _ _ ?_ hnodel
      refine mem_foldl_putKeyed_of p _ _ hp ?_
      intro u hu
      exact fun h => hupd u hu h.symm

/-- C2 witness: a stale generated todo notification of a completed task is
deleted, and the pass leaves an unrelated reminder in the feed. -/
theorem C2_prune_stale_and_spare_reminders_witness :
    "todo:t1" ∈ (reconcilePass
      [⟨"t1", "task", true, 0, some .P1, some MS_DAY, none⟩] [] [] 0 0
      [⟨"todo:t1", "task", .todo, some .todoDue, MS_DAY, 0, false, some "t1",
        some "t1"⟩]).deletions :=
  ((C2_prune_stale_and_spare_reminders
      [⟨"t1", "task", true, 0, some .P1, some MS_DAY, none⟩] [] [] 0 0
      [⟨"todo:t1", "task", .todo, some .todoDue, MS_DAY, 0, false, some "t1",
        some "t1"⟩]
      ⟨"todo:t1", "task", .todo, some .todoDue, MS_DAY, 0, false, some "t1",
        some "t1"⟩
      (by decide) (by decide)).1 (by decide) (by decide)).1

/-! ### Window bounds of the desired set -/

theorem mem_buildMedicineAlerts_shape (meds : List Medicine) (t : Int)
    (a : MedicineAlert) (ha : a ∈ buildMedicineAlerts meds t) :
    ∃ k : Int, 0 ≤ k ∧ a.scheduledAt = t + k * MS_DAY := by
  rw [buildMedicineAlerts, List.mem_flatMap] at ha
  obtain ⟨med, hmed, hma⟩ := ha
  have h0 : 0 ≤ getRemainingDays med t := le_max_left 0 _
  cases he : med.alarmEnabled with
  | false => simp [he] at hma
  | true =>
      simp only [he, Bool.not_true, Bool.false_eq_true, if_false] at hma
      by_cases h7 : REFILL_SOON_DAYS ≤ getRemainingDays med t
      · rw [if_pos h7] at hma
        rcases List.mem_cons.mp hma with h | h
        · exact ⟨getRemainingDays med t, h0, by rw [h]; rfl⟩
        · rw [List.mem_singleton] at h
          refine ⟨getRemainingDays med t - REFILL_SOON_DAYS, ?_,
            by rw [h]; rfl⟩
          simp only [REFILL_SOON_DAYS] at h7 ⊢
          omega
      · rw [if_neg h7, List.mem_singleton] at hma
        exact ⟨getRemainingDays med t, h0, by rw [hma]; rfl⟩

theorem getDayStartTs_aligned_add {ws : Int} (hws : getDayStartTs ws = ws)
    (k : Int) : getDayStartTs (ws + k * MS_DAY) = ws + k * MS_DAY := by
  simp only [getDayStartTs, MS_DAY] at hws ⊢
  omega

theorem jsRoundDiv_mul (k : Int) : jsRoundDiv (k * MS_DAY) MS_DAY = k := by
  simp only [jsRoundDiv, MS_DAY]
  omega

/-- C3 counterexample: a task due 10 days ahead yields a desired `todo-due`
notification scheduled outside the rolling window `[todayStart,
todayStart + 6 days]`, so the claim fails for todo-due items. -/
theorem C3_counterexample :
    ((desiredNotifications
        [⟨"t1", "task", false, 0, some .P1, some (10 * MS_DAY), none⟩]
        [] [] 0 0).map (fun n => n.scheduledAt) = [10 * MS_DAY]) ∧
    ¬ (10 * MS_DAY ≤ 0 + (NOTIFICATION_WINDOW_DAYS : Int) * MS_DAY) := by
  constructor
  · decide
  · decide

/-- C3 amended: in a reconciliation pass with a day-aligned window anchor,
every medicine and expense notification of the desired set is scheduled
inside the rolling window (`todayStart ≤ scheduledAt ≤ todayStart + 6
days`); `todo-due` notifications are instead scheduled at the day start of
their task's due date, which the pass does not constrain to the window. -/
theorem C3_window_bounds_amended (todos : List Todo)
    (medicines : List Medicine) (expenses : List Expense)
    (windowStart now : Int) (hws : getDayStartTs windowStart = windowStart) :
    (∀ n ∈ desiredNotifications todos medicines expenses windowStart now,
      n.source = NotifSource.medicine ∨ n.source = NotifSource.expense →
      windowStart ≤ n.scheduledAt ∧
        n.scheduledAt ≤ windowStart + (NOTIFICATION_WINDOW_DAYS : Int) * MS_DAY) ∧
    (∀ n ∈ desiredNotifications todos medicines expenses windowStart now,
      n.source = NotifSource.todo →
      ∃ t ∈ todos, ∃ d, t.dueDate = some d ∧
        n.scheduledAt = getDayStartTs d) := by
  constructor
  · intro n hn hsrc
    unfold desiredNotifications at hn
    rcases List.mem_append.mp hn with hn | hn
    rcases List.mem_append.mp hn with hn | hn
    · simp only [desiredTodoNotifications, List.mem_filterMap] at hn
      obtain ⟨todo, hmem, hf⟩ := hn
      rcases hd : todo.dueDate with - | d
      · simp only [hd] at hf
        cases hf
      · simp only [hd] at hf
        by_cases hc : d = 0 ∨ todo.completed = true
        · rw [if_pos hc] at hf
          cases hf
        · rw [if_neg hc] at hf
          injection hf with hf
          subst hf
          rcases hsrc with h | h <;> cases h
    · simp only [desiredMedicineNotifications, List.mem_filterMap] at hn
      obtain ⟨alert, halert, hf⟩ := hn
      obtain ⟨k, hk0, hks⟩ :=
        mem_buildMedicineAlerts_shape medicines windowStart alert halert
      have hs : getDayStartTs alert.scheduledAt =
          windowStart + k * MS_DAY := by
        rw [hks]
        exact getDayStartTs_aligned_add hws k
      have hoff : jsRoundDiv (getDayStartTs alert.scheduledAt - windowStart)
          MS_DAY = k := by
        rw [hs, add_sub_cancel_left, jsRoundDiv_mul]
      split at hf
      · cases hf
      · rename_i hguard
        rw [hoff] at hguard
        push_neg at hguard
        injection hf with hf
        subst hf
        show windowStart ≤ getDayStartTs alert.scheduledAt ∧
          getDayStartTs alert.scheduledAt ≤
            windowStart + (NOTIFICATION_WINDOW_DAYS : Int) * MS_DAY
        rw [hs]
        simp only [MS_DAY, NOTIFICATION_WINDOW_DAYS] at hguard ⊢
        omega
    · simp only [desiredExpenseNotifications, List.mem_flatMap] at hn
      obtain ⟨expense, hemem, hn⟩ := hn
      split at hn
      · cases hn
      · simp only [List.mem_filterMap] at hn
        obtain ⟨d, hdmem, hf⟩ := hn
        unfold windowDayStarts at hdmem
        obtain ⟨o, ho, hdo⟩ := List.mem_map.mp hdmem
        have ho7 : o < NOTIFICATION_WINDOW_DAYS + 1 := List.mem_range.mp ho
        subst hdo
        split at hf
        · injection hf with hf
          subst hf
          show windowStart ≤ windowStart + (o : Int) * MS_DAY ∧
            windowStart + (o : Int) * MS_DAY ≤
              windowStart + (NOTIFICATION_WINDOW_DAYS : Int) * MS_DAY
          have h1 : (0 : Int) ≤ (o : Int) := Int.natCast_nonneg o
          have h2 : (o : Int) ≤ (NOTIFICATION_WINDOW_DAYS : Int) := by
            exact_mod_cast Nat.lt_succ_iff.mp ho7
          simp only [MS_DAY, NOTIFICATION_WINDOW_DAYS] at h1 h2 ⊢
          omega
        · cases hf
  · intro n hn hsrc
    unfold desiredNotifications at hn
    rcases List.mem_append.mp hn with hn | hn
    rcases List.mem_append.mp hn with hn | hn
    · simp only [desiredTodoNotifications, List.mem_filterMap] at hn
      obtain ⟨todo, hmem, hf⟩ := hn
      rcases hd : todo.dueDate with - | d
      · simp only [hd] at hf
        cases hf
      · simp only [hd] at hf
        by_cases hc : d = 0 ∨ todo.completed = true
        · rw [if_pos hc] at hf
          cases hf
        · rw [if_neg hc] at hf
          injection hf with hf
          subst hf
          exact ⟨todo, hmem, d, hd, rfl⟩
    · simp only [desiredMedicineNotifications, List.mem_filterMap] at hn
      obtain ⟨alert, halert, hf⟩ := hn
      split at hf
      · cases hf
      · injection hf with hf
        subst hf
        cases hsrc
    · simp only [desiredExpenseNotifications, List.mem_flatMap] at hn
      obtain ⟨expense, hemem, hn⟩ := hn
      split at hn
      · cases hn
      · simp only [List.mem_filterMap] at hn
        obtain ⟨d, hdmem, hf⟩ := hn
        split at hf
        · injection hf with hf
          subst hf
          cases hsrc
        · cases hf

/-- C3 witness: the bound applied to the concrete refill-soon notification
of the sample medicine at window anchor 0. -/
theorem C3_window_bounds_amended_witness :
    (0 : Int) ≤ (259200000 : Int) ∧
      (259200000 : Int) ≤ 0 + (NOTIFICATION_WINDOW_DAYS : Int) * MS_DAY :=
  (C3_window_bounds_amended [] [sampleMed10] [] 0 0 (by decide)).1
    ⟨"medicine:m1:refill-soon:259200000", "med1 refill soon", .medicine,
      some .medicineRefillSoon, 259200000, 0, false, none, some "m1"⟩
    (by decide) (Or.inl rfl)

/-! ### Daily top 5 -/

theorem isDailyTopCandidate_iff (nowTs : Int) (t : Todo) :
    isDailyTopCandidate nowTs t = true ↔
      (t.completed = false ∧
        ∃ d, t.dueDate = some d ∧ d ≠ 0 ∧ dateKey d ≤ dateKey nowTs) := by
  unfold isDailyTopCandidate
  cases hc : t.completed
  · rcases hd : t.dueDate with - | d
    · simp [hd]
    · by_cases h0 : d = 0
      · simp [hd, h0]
      · simp [hd, h0]
  · simp

/-- C5 counterexample: an incomplete task whose `dueDate` is the epoch
timestamp `0` (calendar day ≤ today) is excluded by the JS truthiness check
`!todo.dueDate`, so the claimed candidate-set characterisation fails. -/
theorem C5_counterexample :
    buildDailyTop5Snapshot [⟨"x", "x", false, 1, some .P1, some 0, some 1⟩] 0
        = [] ∧
      (⟨"x", "x", false, 1, some .P1, some 0, some 1⟩ : Todo).completed
          = false ∧
      (⟨"x", "x", false, 1, some .P1, some 0, some 1⟩ : Todo).dueDate
          = some 0 ∧
      dateKey 0 ≤ dateKey 0 := by
  refine ⟨?_, ?_, ?_, ?_⟩ <;> decide

/-- C5 amended: `buildDailyTop5Snapshot` returns at most 5 entries; its
candidate set is exactly the incomplete tasks with a nonzero `dueDate`
timestamp whose calendar day is on or before today's (the timestamp `0` is
excluded by a JS truthiness check); candidates are ordered by priority
ordinal, then clamped complexity, then `createdAt`, all ascending; and the
claim's three-task example comes out in the claimed order. -/
theorem C5_daily_top5_amended (todos : List Todo) (nowTs : Int) :
    (buildDailyTop5Snapshot todos nowTs).length ≤ 5 ∧
    (∀ t : Todo, t ∈ dailyTopCandidates todos nowTs ↔
      (t ∈ todos ∧ t.completed = false ∧
        ∃ d, t.dueDate = some d ∧ d ≠ 0 ∧ dateKey d ≤ dateKey nowTs)) ∧
    (dailyTopOrdered todos nowTs).Sorted (fun a b =>
      todoPriorityWeight a < todoPriorityWeight b ∨
        (todoPriorityWeight a = todoPriorityWeight b ∧
          (todoNumber a < todoNumber b ∨
            (todoNumber a = todoNumber b ∧ a.createdAt ≤ b.createdAt)))) ∧
    buildDailyTop5Snapshot todos nowTs =
      ((dailyTopOrdered todos nowTs).take 5).map mkSnapshotEntry ∧
    ((buildDailyTop5Snapshot
        [⟨"A", "a", false, 10, some .P2, some 1, some 3⟩,
         ⟨"B", "b", false, 20, some .P1, some 1, some 9⟩,
         ⟨"C", "c", false, 30, some .P1, some 1, some 2⟩] 1).map
        (fun s => s.id) = ["C", "B", "A"]) := by
  refine ⟨?_, ?_, ?_, rfl, by decide⟩
  · rw [buildDailyTop5Snapshot, List.length_map]
    exact List.length_take_le 5 _
  · intro t
    rw [dailyTopCandidates, List.mem_filter, isDailyTopCandidate_iff]
  · exact List.sorted_insertionSort dailyTopLE _

/-! ### Storage fallback -/

theorem markFailed_dbFailed (st : DBState) :
    (markFailed st).dbFailed = true := by
  unfold markFailed warnFallbackOnce
  split <;> rfl

theorem dbFallbackPutItem_flags (st : DBState) (col : String) (item : DBRec)
    (fresh : String) :
    (dbFallbackPutItem st col item fresh).dbFailed = st.dbFailed ∧
    (dbFallbackPutItem st col item fresh).fallbackWarned = st.fallbackWarned ∧
    (dbFallbackPutItem st col item fresh).warnCount = st.warnCount := by
  simp [dbFallbackPutItem, writeStoreKV]

theorem dbFallbackDeleteItem_flags (st : DBState) (col id : String) :
    (dbFallbackDeleteItem st col id).dbFailed = st.dbFailed ∧
    (dbFallbackDeleteItem st col id).fallbackWarned = st.fallbackWarned ∧
    (dbFallbackDeleteItem st col id).warnCount = st.warnCount := by
  simp only [dbFallbackDeleteItem, writeStoreKV]
  split <;> exact ⟨rfl, rfl, rfl⟩

theorem dbPrimaryPut_flags (st : DBState) (col : String) (item : DBRec) :
    (dbPrimaryPut st col item).dbFailed = st.dbFailed ∧
    (dbPrimaryPut st col item).fallbackWarned = st.fallbackWarned ∧
    (dbPrimaryPut st col item).warnCount = st.warnCount := by
  simp [dbPrimaryPut]

theorem dbPrimaryDelete_flags (st : DBState) (col id : String) :
    (dbPrimaryDelete st col id).dbFailed = st.dbFailed ∧
    (dbPrimaryDelete st col id).fallbackWarned = st.fallbackWarned ∧
    (dbPrimaryDelete st col id).warnCount = st.warnCount := by
  simp [dbPrimaryDelete]

theorem markFailed_inv (st : DBState)
    (h1 : st.fallbackWarned = st.dbFailed)
    (h2 : st.warnCount = if st.dbFailed then 1 else 0) :
    (markFailed st).fallbackWarned = true ∧ (markFailed st).warnCount = 1 := by
  unfold markFailed warnFallbackOnce
  cases hf : st.dbFailed with
  | false =>
      rw [hf] at h1
      rw [hf] at h2
      simp [h1, h2]
  | true =>
      rw [hf] at h1
      rw [hf] at h2
      simp [h1, h2]

theorem dbExec_dbFailed (st : DBState) (op : DBOp) :
    (dbExec st op).1.dbFailed = (st.dbFailed || op.fails) := by
  cases op with
  | getAll col f =>
      cases hst : st.dbFailed with
      | true => simp [dbExec, hst]
      | false =>
          cases f with
          | false => simp [dbExec, hst, DBOp.fails]
          | true => simp [dbExec, hst, DBOp.fails, markFailed_dbFailed st]
  | putItem col item fresh f =>
      cases hst : st.dbFailed with
      | true =>
          simp [dbExec, hst, (dbFallbackPutItem_flags st col item fresh).1]
      | false =>
          cases f with
          | false => simp [dbExec, hst, DBOp.fails,
              (dbPrimaryPut_flags st col item).1]
          | true => simp [dbExec, hst, DBOp.fails,
              (dbFallbackPutItem_flags (markFailed st) col item fresh).1,
              markFailed_dbFailed st]
  | deleteItem col id f =>
      cases hst : st.dbFailed with
      | true =>
          simp [dbExec, hst, (dbFallbackDeleteItem_flags st col id).1]
      | false =>
          cases f with
          | false => simp [dbExec, hst, DBOp.fails,
              (dbPrimaryDelete_flags st col id).1]
          | true => simp [dbExec, hst, DBOp.fails,
              (dbFallbackDeleteItem_flags (markFailed st) col id).1,
              markFailed_dbFailed st]

theorem dbExec_failed (st : DBState) (op : DBOp) (h : st.dbFailed = true) :
    (dbExec st op).1.dbFailed = true ∧
    (dbExec st op).2.1 = DBBackend.fallback := by
  cases op with
  | getAll col f => simp [dbExec, h]
  | putItem col item fresh f =>
      simp [dbExec, h, (dbFallbackPutItem_flags st col item fresh).1]
  | deleteItem col id f =>
      simp [dbExec, h, (dbFallbackDeleteItem_flags st col id).1]

theorem dbExec_inv (st : DBState) (op : DBOp)
    (h1 : st.fallbackWarned = st.dbFailed)
    (h2 : st.warnCount = if st.dbFailed then 1 else 0) :
    (dbExec st op).1.fallbackWarned = (dbExec st op).1.dbFailed ∧
    (dbExec st op).1.warnCount =
      (if (dbExec st op).1.dbFailed then 1 else 0) ∧
    (dbExec st op).1.dbFailed = (st.dbFailed || op.fails) := by
  have hmf := markFailed_inv st h1 h2
  cases op with
  | getAll col f =>
      cases hst : st.dbFailed with
      | true =>
          rw [hst] at h1 h2
          simp [dbExec, hst, h1, h2, DBOp.fails]
      | false =>
          rw [hst] at h1 h2
          cases f with
          | false => simp [dbExec, hst, h1, h2, DBOp.fails]
          | true =>
              simp [dbExec, hst, DBOp.fails, markFailed_dbFailed st,
                hmf.1, hmf.2]
  | putItem col item fresh f =>
      have hp := dbFallbackPutItem_flags (markFailed st) col item fresh
      have hp2 := dbFallbackPutItem_flags st col item fresh
      have hq := dbPrimaryPut_flags st col item
      cases hst : st.dbFailed with
      | true =>
          rw [hst] at h1 h2
          simp [dbExec, hst, h1, h2, DBOp.fails, hp2.1, hp2.2.1, hp2.2.2]
      | false =>
          rw [hst] at h1 h2
          cases f with
          | false =>
              simp [dbExec, hst, h1, h2, DBOp.fails, hq.1, hq.2.1, hq.2.2]
          | true =>
              simp [dbExec, hst, DBOp.fails, hp.1, hp.2.1, hp.2.2,
                markFailed_dbFailed st, hmf.1, hmf.2]
  | deleteItem col id f =>
      have hp := dbFallbackDeleteItem_flags (markFailed st) col id
      have hp2 := dbFallbackDeleteItem_flags st col id
      have hq := dbPrimaryDelete_flags st col id
      cases hst : st.dbFailed with
      | true =>
          rw [hst] at h1 h2
          simp [dbExec, hst, h1, h2, DBOp.fails, hp2.1, hp2.2.1, hp2.2.2]
      | false =>
          rw [hst] at h1 h2
          cases f with
          | false =>
              simp [dbExec, hst, h1, h2, DBOp.fails, hq.1, hq.2.1, hq.2.2]
          | true =>
              simp [dbExec, hst, DBOp.fails, hp.1, hp.2.1, hp.2.2,
                markFailed_dbFailed st, hmf.1, hmf.2]

theorem dbRun_failed_sticky (ops : List DBOp) :
    ∀ st : DBState, st.dbFailed = true →
      (dbRun st ops).1.dbFailed = true ∧
      ∀ b ∈ (dbRun st ops).2, b = DBBackend.fallback := by
  induction ops with
  | nil => intro st h; exact ⟨h, by intro b hb; exact absurd hb (by simp [dbRun])⟩
  | cons op rest ih =>
      intro st h
      obtain ⟨ha, hb⟩ := dbExec_failed st op h
      obtain ⟨hc, hd⟩ := ih _ ha
      refine ⟨hc, ?_⟩
      intro b hbm
      simp only [dbRun] at hbm
      rcases List.mem_cons.mp hbm with hbm | hbm
      · rw [hbm, hb]
      · exact hd b hbm

theorem dbRun_warnCount (ops : List DBOp) :
    ∀ st : DBState, st.fallbackWarned = st.dbFailed →
      st.warnCount = (if st.dbFailed then 1 else 0) →
      (dbRun st ops).1.warnCount =
        (if (st.dbFailed || ops.any DBOp.fails) then 1 else 0) := by
  induction ops with
  | nil =>
      intro st h1 h2
      simp only [dbRun, List.any_nil, Bool.or_false]
      exact h2
  | cons op rest ih =>
      intro st h1 h2
      obtain ⟨k1, k2, k3⟩ := dbExec_inv st op h1 h2
      simp only [dbRun]
      rw [ih _ k1 k2, k3, List.any_cons]
      rw [Bool.or_assoc]

theorem assocGet_cons {α : Type} (p : String × α) (l : List (String × α))
    (k : String) :
    assocGet (p :: l) k = if p.1 = k then some p.2 else assocGet l k := by
  by_cases hp : p.1 = k <;> simp [assocGet, List.find?, hp]

theorem assocGet_assocPut_self {α : Type} (k : String) (v : α) :
    ∀ l, assocGet (assocPut l k v) k = some v := by
  intro l
  induction l with
  | nil => simp [assocPut, assocGet, List.find?]
  | cons p tl ih =>
      simp only [assocPut]
      split
      · rw [assocGet_cons]
        simp
      · rename_i hp
        rw [assocGet_cons, if_neg hp]
        exact ih

theorem mem_map_snd_assocPut {α : Type} (k : String) (v : α) :
    ∀ l, v ∈ (assocPut l k v).map (fun p => p.2) := by
  intro l
  induction l with
  | nil => simp [assocPut]
  | cons p tl ih =>
      simp only [assocPut]
      split
      · simp
      · simpa using Or.inr ih

theorem db_fallback_roundtrip (st : DBState) (col : String) (x : DBRec)
    (fresh : String) (f1 f2 : Bool) (hfail : st.dbFailed = true)
    (hx : x.id ≠ "") :
    x ∈ ((dbExec (dbExec st (DBOp.putItem col x fresh f1)).1
        (DBOp.getAll col f2)).2.2.getD []) := by
  have hflag := (dbFallbackPutItem_flags st col x fresh).1
  simp only [dbExec, hfail, if_true, hflag, Option.getD_some]
  simp only [dbFallbackGetAll, readStoreKV, dbFallbackPutItem, writeStoreKV,
    if_neg hx]
  rw [assocGet_assocPut_self]
  simp only [Option.getD_some]
  have hxx : ({ x with id := x.id } : DBRec) = x := rfl
  rw [hxx]
  exact mem_map_snd_assocPut x.id x _

/-- C8: a primary-storage failure switches the layer to the fallback store
and never switches back for the process lifetime (every subsequent
getAll/putItem/deleteItem call is served by the fallback), exactly one
warning is emitted across any number of failures, and on the fallback
`putItem('todos', X)` followed by `getAll('todos')` returns a list
containing `X`. -/
theorem C8_storage_fallback :
    (∀ (st : DBState) (op : DBOp), op.fails = true →
      (dbExec st op).1.dbFailed = true) ∧
    (∀ (st : DBState) (ops : List DBOp), st.dbFailed = true →
      (dbRun st ops).1.dbFailed = true ∧
        ∀ b ∈ (dbRun st ops).2, b = DBBackend.fallback) ∧
    (∀ ops : List DBOp,
      (dbRun initDBState ops).1.warnCount =
        if ops.any DBOp.fails then 1 else 0) ∧
    (∀ (st : DBState) (col : String) (x : DBRec) (fresh : String)
        (f1 f2 : Bool), st.dbFailed = true → x.id ≠ "" →
      x ∈ ((dbExec (dbExec st (DBOp.putItem col x fresh f1)).1
          (DBOp.getAll col f2)).2.2.getD [])) := by
  refine ⟨?_, fun st ops h => dbRun_failed_sticky ops st h, ?_,
    fun st col x fresh f1 f2 h hx =>
      db_fallback_roundtrip st col x fresh f1 f2 h hx⟩
  · intro st op h
    rw [dbExec_dbFailed, h, Bool.or_true]
  · intro ops
    have := dbRun_warnCount ops initDBState rfl rfl
    rw [this]
    rfl

/-- C8 witness: one failing put emits exactly one warning, and a put/getAll
pair on a failed-over state returns the stored record. -/
theorem C8_storage_fallback_witness :
    ((dbRun initDBState [DBOp.putItem "todos" ⟨"x1", "X"⟩ "u" true]).1.warnCount
        = if [DBOp.putItem "todos" ⟨"x1", "X"⟩ "u" true].any DBOp.fails
            then 1 else 0) ∧
    (⟨"x1", "X"⟩ : DBRec) ∈ ((dbExec (dbExec (⟨true, true, 1, [], []⟩ : DBState)
        (DBOp.putItem "todos" ⟨"x1", "X"⟩ "u" false)).1
        (DBOp.getAll "todos" false)).2.2.getD []) :=
  ⟨C8_storage_fallback.2.2.1 _,
   C8_storage_fallback.2.2.2 _ _ _ _ _ _ rfl (by decide)⟩

end TodoApp
